import Mathlib

/-!
Verification development for the crab-log changelog generator
(`src/lib.rs`, `src/bin/main.rs`, and the earlier monolithic `src/main.rs`).

The code is shallowly embedded: the JSON documents returned by the GraphQL
client become the inductive `Value`; `chrono` timestamps become UTC epoch
seconds (`Int`, one-second granularity, which is the granularity of the
RFC 3339 strings the program consumes and of the one-second pagination
step); Rust `Result<T, ()>` becomes `Option`; the remote client itself is
out of scope and is represented by the response documents it would return.
All definitions are executable so that concrete runs can be evaluated
inside proofs.
-/

set_option maxRecDepth 10000

/-- A JSON-like document, covering the `serde_json::Value` variants that the
program actually navigates (objects, arrays, strings, null). -/
inductive Value where
  | null : Value
  | str : String → Value
  | arr : List Value → Value
  | obj : List (String × Value) → Value

/-- Model of `serde_json::Value::get` with a string key: field lookup on an
object, `None` on every other variant. Object keys are unique in a
`serde_json` map, so first-match lookup is exact. -/
def Value.getKey : Value → String → Option Value
  | .obj fields, k => fields.lookup k
  | _, _ => none

/-- Model of `serde_json::Value::get` with a numeric index: element lookup on
an array, `None` on every other variant. -/
def Value.getIdx : Value → Nat → Option Value
  | .arr xs, i => xs[i]?
  | _, _ => none

/-- Model of `serde_json::Value::as_str`. -/
def Value.asStr : Value → Option String
  | .str s => some s
  | _ => none

/-- Model of `serde_json::Value::as_array` (the `cloned()` in the source only
avoids borrowing and does not change the value). -/
def Value.asArr : Value → Option (List Value)
  | .arr xs => some xs
  | _ => none

/-- Proleptic-Gregorian leap-year test. -/
def isLeap (y : Nat) : Bool :=
  y % 4 == 0 && (y % 100 != 0 || y % 400 == 0)

/-- Number of days in month `m` of year `y` (months are 1-based). -/
def daysInMonth (y m : Nat) : Nat :=
  if m = 2 then (if isLeap y then 29 else 28)
  else if m = 4 ∨ m = 6 ∨ m = 9 ∨ m = 11 then 30
  else 31

/-- Days since 1970-01-01 of the civil date `y-m-d` (valid for `1 ≤ y`),
via the standard civil-calendar day count. -/
def daysFromCivil (y m d : Nat) : Int :=
  let yAdj := if m ≤ 2 then y - 1 else y
  let era := yAdj / 400
  let yoe := yAdj % 400
  let mp := if m ≤ 2 then m + 9 else m - 3
  let doy := (153 * mp + 2) / 5 + (d - 1)
  let doe := yoe * 365 + yoe / 4 - yoe / 100 + doy
  (era * 146097 + doe : Int) - 719468

/-- Numeric value of two decimal digit characters. -/
def twoDigits (a b : Char) : Nat :=
  (a.toNat - 48) * 10 + (b.toNat - 48)

/-- Numeric value of four decimal digit characters. -/
def fourDigits (a b c d : Char) : Nat :=
  ((a.toNat - 48) * 10 + (b.toNat - 48)) * 100 + twoDigits c d

/-- Skip an optional fractional-seconds part `.d+` (at least one digit
required when the dot is present); the fraction itself is ignored at the
one-second granularity of this model. -/
def skipFraction : List Char → Option (List Char)
  | '.' :: rest =>
    if (rest.takeWhile Char.isDigit).isEmpty then none
    else some (rest.dropWhile Char.isDigit)
  | rest => some rest

/-- Parse the RFC 3339 numeric UTC-offset suffix (`Z` or `±HH:MM`), in
seconds. -/
def parseOffset : List Char → Option Int
  | ['Z'] => some 0
  | ['z'] => some 0
  | [sgn, h1, h2, ':', m1, m2] =>
    if (sgn = '+' ∨ sgn = '-') ∧ [h1, h2, m1, m2].all Char.isDigit then
      let h := twoDigits h1 h2
      let m := twoDigits m1 m2
      if h ≤ 23 ∧ m ≤ 59 then
        let secs : Int := (h * 3600 + m * 60 : Nat)
        some (if sgn = '+' then secs else -secs)
      else none
    else none
  | _ => none

/-- Model of `chrono::DateTime::parse_from_rfc3339`, an external
collaborator: accepts `YYYY-MM-DDTHH:MM:SS[.frac](Z|±HH:MM)` for years
1..9999 and returns the instant as UTC epoch seconds. The program only
compares instants and subtracts whole seconds, so the offset is folded
into the epoch value exactly as `chrono` folds it when comparing. -/
def parseRfc3339 (s : String) : Option Int :=
  match s.data with
  | y1 :: y2 :: y3 :: y4 :: '-' :: mo1 :: mo2 :: '-' :: dd1 :: dd2 :: tc ::
      h1 :: h2 :: ':' :: mi1 :: mi2 :: ':' :: s1 :: s2 :: rest =>
    if ([y1, y2, y3, y4, mo1, mo2, dd1, dd2, h1, h2, mi1, mi2, s1, s2].all Char.isDigit)
        ∧ (tc = 'T' ∨ tc = 't' ∨ tc = ' ') then
      let y := fourDigits y1 y2 y3 y4
      let mo := twoDigits mo1 mo2
      let da := twoDigits dd1 dd2
      let hh := twoDigits h1 h2
      let mi := twoDigits mi1 mi2
      let ss := twoDigits s1 s2
      if 1 ≤ y ∧ 1 ≤ mo ∧ mo ≤ 12 ∧ 1 ≤ da ∧ da ≤ daysInMonth y mo
          ∧ hh ≤ 23 ∧ mi ≤ 59 ∧ ss ≤ 59 then
        match skipFraction rest with
        | none => none
        | some rest2 =>
          match parseOffset rest2 with
          | none => none
          | some off =>
            some (daysFromCivil y mo da * 86400 + (hh * 3600 + mi * 60 + ss : Nat) - off)
      else none
    else none
  | _ => none

example : parseRfc3339 "1970-01-01T00:00:00Z" = some 0 := by decide
example : parseRfc3339 "2023-01-01T00:00:00+00:00" = some 1672531200 := by decide
example : parseRfc3339 "2023-01-01T01:00:00+01:00" = some 1672531200 := by decide
example : parseRfc3339 "not a date" = none := by decide

/-- A parsed commit (`struct Commit` in `src/lib.rs`). The Rust struct also
carries a `config: &Config` back-reference used only to format the pull
request link; the run-scoped `owner`/`repo` strings are passed to the
rendering functions here instead, which leaves the per-commit data below. -/
structure Commit where
  author : String
  message : String
  pr_number : String
  date : Int
  deriving DecidableEq, Repr

/-- Split a character list at the first occurrence of the non-empty pattern
`pat`, returning the text before and after the occurrence. -/
def charsSplitFirst (pat : List Char) : List Char → Option (List Char × List Char)
  | [] => none
  | c :: rest =>
    if pat.isPrefixOf (c :: rest) then some ([], (c :: rest).drop pat.length)
    else
      match charsSplitFirst pat rest with
      | some (pre, post) => some (c :: pre, post)
      | none => none

/-- Model of Rust `str::split_once`: split at the first occurrence of the
pattern, returning the text before and after it (every pattern used by the
program is non-empty). -/
def splitOnce (s pat : String) : Option (String × String) :=
  match charsSplitFirst pat.data s.data with
  | some (pre, post) => some (⟨pre⟩, ⟨post⟩)
  | none => none

/-- Model of Rust `str::trim` (the commit messages the program handles are
ASCII, where the Rust and Lean whitespace classes agree). -/
def strTrim (s : String) : String :=
  ⟨((s.data.dropWhile Char.isWhitespace).reverse.dropWhile Char.isWhitespace).reverse⟩

/-- First line of a commit message, as produced by `message.lines().next()`
(text before the first newline, with a trailing carriage return stripped).
On the empty message Rust's iterator is empty and the source panics with
"commit message can't be empty"; that fatal input defect is outside every
claim, and the model returns the empty string there. -/
def firstLine (s : String) : String :=
  let l := s.data.takeWhile (fun c => c ≠ '\n')
  let l := if l.getLast? = some '\r' then l.dropLast else l
  ⟨l⟩

/-- Model of the nested `get_pr_number` helper of `Config::build_commit`:
the text between the first `" (#"` and the next `')'` after it. The
`debug_assert!` that this text is all ASCII digits is compiled out of
release builds and is a no-op here; see the claim about the digit
invariant. -/
def getPrNumber (message : String) : Option String := do
  let (_, rightOfParens) ← splitOnce message " (#"
  let (prNumberStr, _) ← splitOnce rightOfParens ")"
  some prNumberStr

/-- Model of `Config::build_commit` (and of the identical
`TryFrom<&Value> for Commit` in `src/main.rs`): navigate one raw history
entry, take the first message line, extract the pull-request number, strip
the `" (#"` suffix from the message, and parse the authored date. Rust's
`Result<Commit, ()>` is `Option Commit` here. -/
def buildCommit (value : Value) : Option Commit := do
  let node ← value.getKey "node"
  let author ← (((node.getKey "author").bind (·.getKey "user")).bind
    (·.getKey "login")).bind Value.asStr
  let msg ← (node.getKey "message").bind Value.asStr
  let fl := firstLine msg
  let pr_number ← getPrNumber fl
  let (beforeRef, _) ← splitOnce fl " (#"
  let message := strTrim beforeRef
  let dateStr ← (node.getKey "authoredDate").bind Value.asStr
  let date ← parseRfc3339 dateStr
  some { author := author, message := message, pr_number := pr_number, date := date }

/-- Raw history entry with the three fields `build_commit` navigates, in the
shape the history query returns (`{ "node": { "author": { "user": { "login":
… } }, "message": …, "authoredDate": … } }`). -/
def mkEntry (author msg date : String) : Value :=
  .obj [("node", .obj [
    ("author", .obj [("user", .obj [("login", .str author)])]),
    ("message", .str msg),
    ("authoredDate", .str date)])]

example :
    buildCommit (mkEntry "alice" "Fix bug (#42)" "2023-01-01T00:00:00+00:00")
      = some { author := "alice", message := "Fix bug", pr_number := "42", date := 1672531200 } := by
  decide

example : buildCommit (mkEntry "alice" "Fix bug" "2023-01-01T00:00:00+00:00") = none := by
  decide

/-- Pull-request categories (`enum PRKind`). -/
inductive PRKind where
  | Feature : PRKind
  | BugFix : PRKind
  | Internal : PRKind
  | Ignored : PRKind
  deriving DecidableEq, Repr

/-- A commit paired with its resolved category (`struct PR`). Its `Ord`
instance, like `Commit`'s, compares by `commit.date` alone. -/
structure PR where
  commit : Commit
  kind : PRKind
  deriving DecidableEq, Repr

/-- The fixed label-to-category lookup built at the top of `pr_from_commit`
(`HashMap::from`, queried by exact key equality). -/
def mapping (label : String) : Option PRKind :=
  if label = "enhancement" then some .Feature
  else if label = "bug" then some .BugFix
  else if label = "Internal" then some .Internal
  else none

/-- Navigation of the labels-query response down to the label edge array
(`data.repository.pullRequest.labels.edges`, then `as_array`), exactly the
`and_then` chain of `pr_from_commit`; `none` models the `ok_or(())?`
failure. -/
def labelEdges (resp : Value) : Option (List Value) :=
  (((((resp.getKey "data").bind (·.getKey "repository")).bind
    (·.getKey "pullRequest")).bind (·.getKey "labels")).bind
    (·.getKey "edges")).bind Value.asArr

/-- Label names in query order: the `flat_map` chain over the edge array
(`node`, `name`, `as_str`), dropping edges where any step fails. -/
def labelNames (edges : List Value) : List String :=
  edges.filterMap (fun o => ((o.getKey "node").bind (·.getKey "name")).bind Value.asStr)

/-- The label loop of `pr_from_commit`: return the category of the first
name that the mapping recognizes, or `Ignored` when no name matches
(including the zero-label case). -/
def classifyLabels : List String → PRKind
  | [] => .Ignored
  | l :: rest =>
    match mapping l with
    | some k => k
    | none => classifyLabels rest

/-- Model of `pr_from_commit`: the labels query for `commit.pr_number` has
produced the response document `resp`; a response that cannot be navigated
fails the whole enrichment (`Err(())`, here `none`), and otherwise the
commit is paired with the first-matching category. -/
def prFromCommit (commit : Commit) (resp : Value) : Option PR :=
  (labelEdges resp).map (fun edges => { commit := commit, kind := classifyLabels (labelNames edges) })

/-- Labels-query response carrying the given label names, in order. -/
def mkLabelsResp (labels : List String) : Value :=
  .obj [("data", .obj [("repository", .obj [("pullRequest", .obj [("labels", .obj [
    ("edges", .arr (labels.map (fun l => .obj [("node", .obj [("name", .str l)])])))])])])])]

example :
    prFromCommit { author := "a", message := "m", pr_number := "1", date := 0 }
        (mkLabelsResp ["Internal", "bug"])
      = some { commit := { author := "a", message := "m", pr_number := "1", date := 0 },
               kind := .Internal } := by decide

example : prFromCommit { author := "a", message := "m", pr_number := "1", date := 0 } .null
    = none := by decide

/-- Navigation of the history-query response down to the raw entry array
(`data.repository.refs.edges[0].node.target.history.edges`, then
`as_array`), exactly the `and_then` chain of `get_100_commits`. -/
def rawEntries (resp : Value) : Option (List Value) :=
  ((((((((resp.getKey "data").bind (·.getKey "repository")).bind
    (·.getKey "refs")).bind (·.getKey "edges")).bind (·.getIdx 0)).bind
    (·.getKey "node")).bind (·.getKey "target")).bind (·.getKey "history")).bind
    (fun h => ((h.getKey "edges").bind Value.asArr))

/-- Authored date of one raw history entry (`node.authoredDate`, `as_str`,
then the RFC 3339 parse), as used for the pagination boundary. -/
def entryDate (e : Value) : Option Int :=
  (((e.getKey "node").bind (·.getKey "authoredDate")).bind Value.asStr).bind parseRfc3339

/-- Model of one `get_100_commits` call, given the response document the
history query returned for the current window. The new window bound is the
authored date of the last raw entry minus one second; on an empty raw
batch `vec.last()` is `None`, so the whole call fails — and the
`checked_sub_signed` underflow `expect` cannot fire in the integer model
of time. Parsed commits are collected with `flat_map`, dropping entries
`build_commit` rejects. -/
def get100FromResponse (resp : Value) : Option (List Commit × Int) := do
  let vec ← rawEntries resp
  let lastEntry ← vec.getLast?
  let lastDate ← entryDate lastEntry
  let newDate := lastDate - 1
  some (vec.filterMap buildCommit, newDate)

/-- Parsed commits of one page, or `[]` when the page fails; used only to
state concatenation results. -/
def pageCommits (resp : Value) : List Commit :=
  ((get100FromResponse resp).map Prod.fst).getD []

/-- The pagination loop of `get_commits`, with the remote client modelled as
the script of response documents that successive history queries return
(the shrinking `until` bound only changes the query text, never the loop's
control flow). A failed call or an empty parsed batch breaks the loop and
leaves the accumulated commits; a script long enough to reach such a page
fully determines the run, and the result ignores everything after it. -/
def getCommitsLoop : List Value → List Commit → List Commit
  | [], acc => acc
  | r :: rest, acc =>
    match get100FromResponse r with
    | none => acc
    | some (new100, _newUntil) =>
      if new100.isEmpty then acc else getCommitsLoop rest (acc ++ new100)

/-- Model of `get_commits`: the first `get_100_commits` call (window ending
now) propagates failure with `?`, and only then the loop runs. The script
must contain at least the first call's response. -/
def getCommits : List Value → Option (List Commit)
  | [] => none
  | r :: rest =>
    match get100FromResponse r with
    | none => none
    | some (ret, _untilDate) => some (getCommitsLoop rest ret)

/-- History-query response carrying the given raw entries, in order. -/
def mkHistResp (entries : List Value) : Value :=
  .obj [("data", .obj [("repository", .obj [("refs", .obj [("edges", .arr [
    .obj [("node", .obj [("target", .obj [("history", .obj [("edges", .arr entries)])])])]])])])])]

example : rawEntries (mkHistResp []) = some [] := rfl
example : get100FromResponse (mkHistResp []) = none := by decide
example :
    getCommits [mkHistResp [mkEntry "alice" "Fix bug (#42)" "2023-01-01T00:00:00+00:00"],
                mkHistResp []]
      = some [{ author := "alice", message := "Fix bug", pr_number := "42", date := 1672531200 }] := by
  decide

/-- Swap the elements at positions `i` and `j` of a list (identity when
either index is out of range, which never happens in the heap's uses). -/
def lswap {α : Type} (l : List α) (i j : Nat) : List α :=
  match l[i]?, l[j]? with
  | some a, some b => (l.set i b).set j a
  | _, _ => l

/-- Rust `BinaryHeap::sift_up` (as called from `push`, with `start = 0`),
on the backing array: bubble the element at `pos` up while it is strictly
greater than its parent — `Ord` on `PR` and `Commit` compares
`commit.date` alone. The fuel argument only bounds the strictly
decreasing position index so the recursion is structural; `pos + 1` fuel
is always enough. -/
def siftUpAux : Nat → List PR → Nat → List PR
  | 0, data, _ => data
  | fuel + 1, data, pos =>
    if pos = 0 then data
    else
      match data[pos]?, data[(pos - 1) / 2]? with
      | some e, some p =>
        if e.commit.date ≤ p.commit.date then data
        else siftUpAux fuel (lswap data pos ((pos - 1) / 2)) ((pos - 1) / 2)
      | _, _ => data

/-- Rust `BinaryHeap::push`: append the element and sift it up from the old
length. -/
def heapPush (data : List PR) (x : PR) : List PR :=
  siftUpAux (data.length + 1) (data ++ [x]) data.length

/-- Rust `BinaryHeap::sift_down_range` within `[0, e)`, on the backing
array: move the element at `pos` down, always through the larger child
(ties pick the right child, as in `child += (get(child) <= get(child+1))`),
stopping as soon as the element is `>=` that child; a final single left
child at `e - 1` is handled by the trailing comparison. The fuel bounds
the strictly increasing position index; `e` fuel is always enough. -/
def siftDownAux : Nat → List PR → Nat → Nat → List PR
  | 0, data, _, _ => data
  | fuel + 1, data, pos, e =>
    if 2 * pos + 3 ≤ e then
      match data[2 * pos + 1]?, data[2 * pos + 2]?, data[pos]? with
      | some c, some c1, some x =>
        if c.commit.date ≤ c1.commit.date then
          if c1.commit.date ≤ x.commit.date then data
          else siftDownAux fuel (lswap data pos (2 * pos + 2)) (2 * pos + 2) e
        else
          if c.commit.date ≤ x.commit.date then data
          else siftDownAux fuel (lswap data pos (2 * pos + 1)) (2 * pos + 1) e
      | _, _, _ => data
    else if 2 * pos + 2 = e then
      match data[pos]?, data[2 * pos + 1]? with
      | some x, some c =>
        if x.commit.date < c.commit.date then lswap data pos (2 * pos + 1) else data
      | _, _ => data
    else data

/-- Entry point of `sift_down_range(pos, e)` with sufficient fuel. -/
def siftDown (data : List PR) (pos e : Nat) : List PR :=
  siftDownAux e data pos e

/-- The loop of Rust `BinaryHeap::into_sorted_vec`, by remaining range
length `e`: while `e > 1`, decrement `e`, swap the root with position `e`,
and sift the new root down within `[0, e)`. -/
def intoSortedVecAux : Nat → List PR → List PR
  | 0, data => data
  | 1, data => data
  | e + 2, data => intoSortedVecAux (e + 1) (siftDown (lswap data 0 (e + 1)) 0 (e + 1))

/-- Rust `BinaryHeap::into_sorted_vec` on the backing array: heap-sort in
place, yielding ascending `Ord` order (by `commit.date`). -/
def intoSortedVec (data : List PR) : List PR :=
  intoSortedVecAux data.length data

/-- Markdown bullet body for one commit, as in `impl Display for Commit`:
`<message> by @<author> in [#<pr>](<host>/<owner>/<repo>/pull/<pr>)`. The
`owner`/`repo` strings come from the run's `Config`, which every commit
references in the source. -/
def displayCommit (owner repo : String) (c : Commit) : String :=
  c.message ++ " by @" ++ c.author ++ " in [#" ++ c.pr_number ++ "](https://github.com/"
    ++ owner ++ "/" ++ repo ++ "/pull/" ++ c.pr_number ++ ")"

/-- One rendered Markdown section body: the category's heap drained with
`into_sorted_vec`, one `- <display>` bullet per item in that order. -/
def renderSection (owner repo : String) (data : List PR) : List String :=
  (intoSortedVec data).map (fun pr => "- " ++ displayCommit owner repo pr.commit)

/-- The four per-category heaps of `main` (backing arrays in push order). -/
structure Collections where
  features : List PR
  fixes : List PR
  improvements : List PR
  ignored : List PR
  deriving Repr

/-- The consumption loop of `main`: classification results are taken in
completion order; `Err` results are discarded by the `if let Ok(pr)`, and
each `Ok` result is pushed onto the heap of its kind. -/
def aggregateFrom (acc : Collections) : List (Option PR) → Collections
  | [] => acc
  | r :: rest =>
    match r with
    | none => aggregateFrom acc rest
    | some pr =>
      match pr.kind with
      | .Feature => aggregateFrom { acc with features := heapPush acc.features pr } rest
      | .BugFix => aggregateFrom { acc with fixes := heapPush acc.fixes pr } rest
      | .Internal => aggregateFrom { acc with improvements := heapPush acc.improvements pr } rest
      | .Ignored => aggregateFrom { acc with ignored := heapPush acc.ignored pr } rest

/-- Aggregation of a completion-ordered result sequence into the four
category collections, starting from empty heaps. -/
def aggregate (arrivals : List (Option PR)) : Collections :=
  aggregateFrom ⟨[], [], [], []⟩ arrivals

/-- Every commit the program can ever show: the three rendered sections (in
sorted order) and the four collections themselves (the `Ignored` heap is
only drained to the diagnostic channel, in backing-array order, by
`eprint_ignored`). -/
def allOutputCommits (cols : Collections) : List Commit :=
  (intoSortedVec cols.features ++ intoSortedVec cols.fixes ++ intoSortedVec cols.improvements
    ++ cols.features ++ cols.fixes ++ cols.improvements ++ cols.ignored).map (·.commit)

/-- Substring test on character lists, used to model Rust
`str::contains(&str)`. -/
def charsHaveSub (pat : List Char) : List Char → Bool
  | [] => pat.isEmpty
  | c :: rest => pat.isPrefixOf (c :: rest) || charsHaveSub pat rest

/-- Model of Rust `String::contains` with a string pattern. -/
def strContains (s pat : String) : Bool :=
  charsHaveSub pat.data s.data

/-- The bot filter of `main`: keep only commits whose author handle does not
contain `"dependabot"`; only surviving commits get a labels query. -/
def botFilter (commits : List Commit) : List Commit :=
  commits.filter (fun c => !(strContains c.author "dependabot"))

/-- The classification fan-out of `main`: one labels query per surviving
commit, with `resp` giving the response document each commit's query
returns. The results are consumed in completion order, an arbitrary
permutation of this submission-ordered list. -/
def classificationResults (commits : List Commit) (resp : Commit → Value) : List (Option PR) :=
  (botFilter commits).map (fun c => prFromCommit c (resp c))

example : strContains "dependabot[bot]" "dependabot" = true := by decide
example : strContains "alice" "dependabot" = false := by decide

/-- Elements of a swapped list were already in the list. -/
theorem mem_of_lswap {α : Type} {x : α} {l : List α} {i j : Nat}
    (h : x ∈ lswap l i j) : x ∈ l := by
  unfold lswap at h
  cases hi : l[i]? with
  | none => rw [hi] at h; exact h
  | some a =>
    cases hj : l[j]? with
    | none => rw [hi, hj] at h; exact h
    | some b =>
      rw [hi, hj] at h
      rcases List.mem_or_eq_of_mem_set h with h' | rfl
      · rcases List.mem_or_eq_of_mem_set h' with h'' | rfl
        · exact h''
        · obtain ⟨hlt, rfl⟩ := List.getElem?_eq_some.mp hj
          exact List.getElem_mem hlt
      · obtain ⟨hlt, rfl⟩ := List.getElem?_eq_some.mp hi
        exact List.getElem_mem hlt

/-- Sifting up only permutes, so membership is preserved. -/
theorem mem_of_siftUpAux {x : PR} :
    ∀ {fuel : Nat} {data : List PR} {pos : Nat}, x ∈ siftUpAux fuel data pos → x ∈ data := by
  intro fuel
  induction fuel with
  | zero => intro data pos h; exact h
  | succ n ih =>
    intro data pos h
    unfold siftUpAux at h
    repeat' split at h
    all_goals first
      | exact h
      | exact mem_of_lswap (ih h)

/-- Sifting down only permutes, so membership is preserved. -/
theorem mem_of_siftDownAux {x : PR} :
    ∀ {fuel : Nat} {data : List PR} {pos e : Nat},
      x ∈ siftDownAux fuel data pos e → x ∈ data := by
  intro fuel
  induction fuel with
  | zero => intro data pos e h; exact h
  | succ n ih =>
    intro data pos e h
    unfold siftDownAux at h
    repeat' split at h
    all_goals first
      | exact h
      | exact mem_of_lswap (ih h)
      | exact mem_of_lswap h

/-- Heap-sorting only permutes, so membership is preserved. -/
theorem mem_of_intoSortedVecAux {x : PR} :
    ∀ {e : Nat} {data : List PR}, x ∈ intoSortedVecAux e data → x ∈ data := by
  intro e
  induction e using Nat.strong_induction_on with
  | _ e ih =>
    intro data h
    match e with
    | 0 => exact h
    | 1 => exact h
    | e + 2 =>
      unfold intoSortedVecAux at h
      exact mem_of_lswap (mem_of_siftDownAux (ih (e + 1) (by omega) h))

/-- Every element of the sorted vector was in the heap's backing array. -/
theorem mem_of_intoSortedVec {x : PR} {data : List PR}
    (h : x ∈ intoSortedVec data) : x ∈ data :=
  mem_of_intoSortedVecAux h

/-- Every element of a heap after a push is either an old element or the
pushed one. -/
theorem mem_of_heapPush {x y : PR} {data : List PR}
    (h : x ∈ heapPush data y) : x ∈ data ∨ x = y := by
  have := @mem_of_siftUpAux x (data.length + 1) (data ++ [y]) data.length h
  rcases List.mem_append.mp this with h' | h'
  · exact Or.inl h'
  · exact Or.inr (List.mem_singleton.mp h')

/-- Membership in any of the four category collections. -/
def Collections.anyMem (cols : Collections) (x : PR) : Prop :=
  x ∈ cols.features ∨ x ∈ cols.fixes ∨ x ∈ cols.improvements ∨ x ∈ cols.ignored

/-- A result in some collection after aggregation was already in the
accumulator or arrived as an `Ok` result. -/
theorem anyMem_aggregateFrom {x : PR} :
    ∀ {rs : List (Option PR)} {acc : Collections},
      (aggregateFrom acc rs).anyMem x → acc.anyMem x ∨ some x ∈ rs := by
  intro rs
  induction rs with
  | nil => intro acc h; exact Or.inl h
  | cons r rest ih =>
    intro acc h
    cases r with
    | none =>
      simp only [aggregateFrom] at h
      rcases ih h with h' | h'
      · exact Or.inl h'
      · exact Or.inr (List.mem_cons_of_mem _ h')
    | some pr =>
      cases hk : pr.kind <;> simp only [aggregateFrom, hk] at h <;>
        rcases ih h with h' | h'
      case Feature.inr | BugFix.inr | Internal.inr | Ignored.inr =>
        exact Or.inr (List.mem_cons_of_mem _ h')
      case Feature.inl =>
        rcases h' with hm | hm | hm | hm
        · rcases mem_of_heapPush hm with h3 | rfl
          · exact Or.inl (Or.inl h3)
          · exact Or.inr (List.mem_cons_self _ _)
        · exact Or.inl (Or.inr (Or.inl hm))
        · exact Or.inl (Or.inr (Or.inr (Or.inl hm)))
        · exact Or.inl (Or.inr (Or.inr (Or.inr hm)))
      case BugFix.inl =>
        rcases h' with hm | hm | hm | hm
        · exact Or.inl (Or.inl hm)
        · rcases mem_of_heapPush hm with h3 | rfl
          · exact Or.inl (Or.inr (Or.inl h3))
          · exact Or.inr (List.mem_cons_self _ _)
        · exact Or.inl (Or.inr (Or.inr (Or.inl hm)))
        · exact Or.inl (Or.inr (Or.inr (Or.inr hm)))
      case Internal.inl =>
        rcases h' with hm | hm | hm | hm
        · exact Or.inl (Or.inl hm)
        · exact Or.inl (Or.inr (Or.inl hm))
        · rcases mem_of_heapPush hm with h3 | rfl
          · exact Or.inl (Or.inr (Or.inr (Or.inl h3)))
          · exact Or.inr (List.mem_cons_self _ _)
        · exact Or.inl (Or.inr (Or.inr (Or.inr hm)))
      case Ignored.inl =>
        rcases h' with hm | hm | hm | hm
        · exact Or.inl (Or.inl hm)
        · exact Or.inl (Or.inr (Or.inl hm))
        · exact Or.inl (Or.inr (Or.inr (Or.inl hm)))
        · rcases mem_of_heapPush hm with h3 | rfl
          · exact Or.inl (Or.inr (Or.inr (Or.inr h3)))
          · exact Or.inr (List.mem_cons_self _ _)

/-- Every commit the program shows corresponds to an `Ok` classification
result that arrived. -/
theorem mem_allOutputCommits_aggregate {c : Commit} {arrivals : List (Option PR)}
    (h : c ∈ allOutputCommits (aggregate arrivals)) :
    ∃ pr, some pr ∈ arrivals ∧ pr.commit = c := by
  obtain ⟨pr, hpr, rfl⟩ := List.mem_map.mp h
  have hany : (aggregate arrivals).anyMem pr := by
    rcases List.mem_append.mp hpr with h1 | h1
    · rcases List.mem_append.mp h1 with h2 | h2
      · rcases List.mem_append.mp h2 with h3 | h3
        · rcases List.mem_append.mp h3 with h4 | h4
          · rcases List.mem_append.mp h4 with h5 | h5
            · rcases List.mem_append.mp h5 with h6 | h6
              · exact Or.inl (mem_of_intoSortedVec h6)
              · exact Or.inr (Or.inl (mem_of_intoSortedVec h6))
            · exact Or.inr (Or.inr (Or.inl (mem_of_intoSortedVec h5)))
          · exact Or.inl h4
        · exact Or.inr (Or.inl h3)
      · exact Or.inr (Or.inr (Or.inl h2))
    · exact Or.inr (Or.inr (Or.inr h1))
  rcases anyMem_aggregateFrom hany with h' | h'
  · rcases h' with h'' | h'' | h'' | h'' <;> simp at h''
  · exact ⟨pr, h', rfl⟩

/-- An enrichment that succeeds returns the very commit it was given. -/
theorem prFromCommit_commit {c : Commit} {v : Value} {pr : PR}
    (h : prFromCommit c v = some pr) : pr.commit = c := by
  unfold prFromCommit at h
  cases he : labelEdges v with
  | none => rw [he] at h; exact absurd h (by simp)
  | some es => rw [he] at h; simp at h; rw [← h]

/-- If every label in `pre` misses the mapping and `l` hits it with category
`k`, the label loop returns `k` for `pre ++ l :: post`. -/
theorem classifyLabels_first_match :
    ∀ (pre : List String) (l : String) (post : List String) (k : PRKind),
      (∀ p ∈ pre, mapping p = none) → mapping l = some k →
      classifyLabels (pre ++ l :: post) = k := by
  intro pre
  induction pre with
  | nil =>
    intro l post k _ hl
    simp only [List.nil_append, classifyLabels, hl]
  | cons p ps ih =>
    intro l post k hpre hl
    have hp : mapping p = none := hpre p (List.mem_cons_self _ _)
    simp only [List.cons_append, classifyLabels, hp]
    exact ih l post k (fun q hq => hpre q (List.mem_cons_of_mem _ hq)) hl

/-- If no label hits the mapping, the label loop falls through to
`Ignored`. -/
theorem classifyLabels_all_miss :
    ∀ (ls : List String), (∀ l ∈ ls, mapping l = none) → classifyLabels ls = .Ignored := by
  intro ls
  induction ls with
  | nil => intro _; rfl
  | cons l rest ih =>
    intro hmiss
    have hl : mapping l = none := hmiss l (List.mem_cons_self _ _)
    simp only [classifyLabels, hl]
    exact ih (fun q hq => hmiss q (List.mem_cons_of_mem _ hq))

/-- C4: whenever the labels response navigates to a label list, the
enrichment succeeds and returns the commit paired with the category of the
first label, in query order, that the fixed mapping recognizes
(`"enhancement"→Feature`, `"bug"→BugFix`, `"Internal"→Internal`); when no
label matches — including the zero-label case — it succeeds with
`Ignored`. The claim's example `["Internal","bug"] ↦ Internal` is the
witness below. -/
theorem c4_classification_first_match (c : Commit) (resp : Value) (es : List Value)
    (h : labelEdges resp = some es) :
    prFromCommit c resp = some { commit := c, kind := classifyLabels (labelNames es) } ∧
    (∀ (pre : List String) (l : String) (post : List String) (k : PRKind),
      labelNames es = pre ++ l :: post → (∀ p ∈ pre, mapping p = none) →
      mapping l = some k →
      classifyLabels (labelNames es) = k) ∧
    ((∀ l ∈ labelNames es, mapping l = none) →
      classifyLabels (labelNames es) = PRKind.Ignored) := by
  refine ⟨?_, ?_, ?_⟩
  · unfold prFromCommit
    rw [h]
    rfl
  · intro pre l post k hsplit hpre hl
    rw [hsplit]
    exact classifyLabels_first_match pre l post k hpre hl
  · intro hmiss
    exact classifyLabels_all_miss _ hmiss

/-- Witness for C4 at the claim's concrete input: labels
`["Internal","bug"]` in that order classify as `Internal` (first match
wins, not `BugFix`), via the theorem itself. -/
theorem c4_classification_first_match_witness :
    prFromCommit { author := "a", message := "m", pr_number := "7", date := 0 }
        (mkLabelsResp ["Internal", "bug"])
      = some { commit := { author := "a", message := "m", pr_number := "7", date := 0 },
               kind := PRKind.Internal } := by
  have h := c4_classification_first_match
    { author := "a", message := "m", pr_number := "7", date := 0 }
    (mkLabelsResp ["Internal", "bug"])
    ((mkLabelsResp ["Internal", "bug"]).getKey "data" |>.bind (·.getKey "repository")
      |>.bind (·.getKey "pullRequest") |>.bind (·.getKey "labels") |>.bind (·.getKey "edges")
      |>.bind Value.asArr |>.getD []) rfl
  exact h.1.trans (by decide)

/-- C3 (counterexample): on a first line with two `(#…)` tokens the parser
takes the number from the FIRST `" (#"` occurrence and cuts the message
before it, not from the trailing token as the claim states: for
`"Fix (#1) then (#42)"` it yields `pr_number = "1"` (the trailing token is
`"42"`) and `message = "Fix"` (stripping the trailing token alone would
leave `"Fix (#1) then"`). -/
theorem c3_counterexample :
    buildCommit (mkEntry "alice" "Fix (#1) then (#42)" "2023-01-01T00:00:00+00:00")
        = some { author := "alice", message := "Fix", pr_number := "1", date := 1672531200 }
      ∧ ("1" : String) ≠ "42" ∧ ("Fix" : String) ≠ "Fix (#1) then" := by
  decide

/-- C3 (amended): for every raw history entry whose first message line
contains `" (#"` followed later by `')'`, the parser yields a `Commit`
whose `pr_number` is the text between the FIRST `" (#"` occurrence and the
next `')'`, and whose `message` is the part of the first line before that
first occurrence, whitespace-trimmed; the author is taken verbatim and the
date must parse as RFC 3339. -/
theorem c3_parser_first_occurrence (author msg dateStr : String) (d : Int)
    (pre rest num rest2 : String)
    (hd : parseRfc3339 dateStr = some d)
    (h1 : splitOnce (firstLine msg) " (#" = some (pre, rest))
    (h2 : splitOnce rest ")" = some (num, rest2)) :
    buildCommit (mkEntry author msg dateStr) = some
      { author := author, message := strTrim pre, pr_number := num, date := d } := by
  have hnav : buildCommit (mkEntry author msg dateStr) =
      (do
        let pr_number ← getPrNumber (firstLine msg)
        let (beforeRef, _) ← splitOnce (firstLine msg) " (#"
        let date ← parseRfc3339 dateStr
        some { author := author, message := strTrim beforeRef, pr_number := pr_number,
               date := date } : Option Commit) := rfl
  rw [hnav]
  simp [getPrNumber, h1, h2, hd]

/-- Witness for the amended C3 at the spec's round-trip example: message
`"Fix bug (#42)"`, author `"alice"`, date `"2023-01-01T00:00:00+00:00"`
parse to `Commit{author:"alice", message:"Fix bug", pr_number:"42",
date:<parsed>}`. -/
theorem c3_parser_first_occurrence_witness :
    buildCommit (mkEntry "alice" "Fix bug (#42)" "2023-01-01T00:00:00+00:00") = some
      { author := "alice", message := "Fix bug", pr_number := "42", date := 1672531200 } := by
  have h := c3_parser_first_occurrence "alice" "Fix bug (#42)" "2023-01-01T00:00:00+00:00"
    1672531200 "Fix bug" "42)" "42" "" (by decide) (by decide) (by decide)
  exact h.trans (by decide)

/-- C7 (code bug): in release builds the digit check on the extracted
pull-request number is only a compiled-out `debug_assert!`, so the parser
happily produces a `pr_number` containing a non-digit: on the entry with
first line `"Fix bug (#4a2)"` it returns `pr_number = "4a2"`, which
violates the all-digits invariant the assertion documents (a debug build
panics on this very input). -/
theorem c7_nondigit_pr_number_in_release :
    buildCommit (mkEntry "alice" "Fix bug (#4a2)" "2023-01-01T00:00:00+00:00")
        = some { author := "alice", message := "Fix bug", pr_number := "4a2", date := 1672531200 }
      ∧ ("4a2".data.all Char.isDigit) = false := by
  decide

/-- In a pairwise-related list, every element equals the last element or is
related to it. -/
theorem pairwise_rel_getLast {α : Type} {R : α → α → Prop} :
    ∀ {l : List α} {z : α}, l.Pairwise R → l.getLast? = some z →
      ∀ a ∈ l, a = z ∨ R a z := by
  intro l
  induction l with
  | nil => intro z _ hz; simp at hz
  | cons x xs ih =>
    intro z hpw hz a ha
    cases xs with
    | nil =>
      simp at hz ha
      subst hz; subst ha
      exact Or.inl rfl
    | cons y ys =>
      rw [List.getLast?_cons_cons] at hz
      rcases List.mem_cons.mp ha with rfl | ha'
      · have hzmem : z ∈ y :: ys := by
          have := List.getLast?_eq_getLast (y :: ys) (by simp)
          rw [this] at hz
          injection hz with hz'
          rw [← hz']
          exact List.getLast_mem _
        exact Or.inr ((List.pairwise_cons.mp hpw).1 z hzmem)
      · exact ih (List.pairwise_cons.mp hpw).2 hz a ha'

/-- C1: for any history-query response whose raw batch is non-empty, lies
(as the remote contract guarantees) within the requested window
`(since, u]`, and is ordered newest-first, `get_100_commits` succeeds and
the next window's upper bound equals the authored date of the LAST raw
entry — which under that ordering is the earliest date of the page — minus
exactly one second, so the bound strictly decreases: `new until < u`. This
is the step the `get_commits` loop iterates with `until_date = new_until`. -/
theorem c1_window_monotonicity (resp : Value) (u : Int) (es : List Value)
    (hraw : rawEntries resp = some es) (hne : es ≠ [])
    (hdates : ∀ e ∈ es, ∃ d, entryDate e = some d ∧ d ≤ u)
    (hsorted : es.Pairwise (fun a b => ∀ da db,
      entryDate a = some da → entryDate b = some db → db ≤ da)) :
    ∃ lastE dlast,
      es.getLast? = some lastE ∧ entryDate lastE = some dlast ∧
      get100FromResponse resp = some (es.filterMap buildCommit, dlast - 1) ∧
      dlast - 1 < u ∧
      (∀ e ∈ es, ∀ d, entryDate e = some d → dlast ≤ d) := by
  have hlast? : es.getLast? = some (es.getLast hne) := List.getLast?_eq_getLast es hne
  obtain ⟨dlast, hdl, hdlu⟩ := hdates _ (List.getLast_mem hne)
  refine ⟨es.getLast hne, dlast, hlast?, hdl, ?_, by omega, ?_⟩
  · unfold get100FromResponse
    rw [hraw]
    simp only [Option.bind_eq_bind, Option.some_bind, hlast?, hdl]
  · intro e he d hd
    rcases pairwise_rel_getLast hsorted hlast? e he with rfl | hrel
    · rw [hd] at hdl
      injection hdl with h'
      omega
    · exact hrel d dlast hd hdl

/-- Witness for C1: a one-entry page dated 2023-01-01 inside a window ending
2023-01-02 makes the next bound that date minus one second, strictly below
the old bound. -/
theorem c1_window_monotonicity_witness :
    ∃ lastE dlast,
      [mkEntry "alice" "Fix bug (#42)" "2023-01-01T00:00:00+00:00"].getLast? = some lastE ∧
      entryDate lastE = some dlast ∧
      get100FromResponse (mkHistResp [mkEntry "alice" "Fix bug (#42)" "2023-01-01T00:00:00+00:00"])
        = some ([mkEntry "alice" "Fix bug (#42)" "2023-01-01T00:00:00+00:00"].filterMap buildCommit,
                dlast - 1) ∧
      dlast - 1 < 1672617600 ∧
      (∀ e ∈ [mkEntry "alice" "Fix bug (#42)" "2023-01-01T00:00:00+00:00"],
        ∀ d, entryDate e = some d → dlast ≤ d) := by
  refine c1_window_monotonicity _ 1672617600 _ rfl (by simp) ?_ (List.pairwise_singleton _ _)
  intro e he
  rw [List.mem_singleton] at he
  subst he
  exact ⟨1672531200, rfl, by decide⟩

/-- The pagination loop stops at the first page that fails (in particular at
an empty raw batch, where `vec.last()` is `None`), keeps everything
accumulated from the non-empty pages before it, and never looks at the
script beyond that page. -/
theorem getCommitsLoop_stops :
    ∀ (rs : List Value) (acc : List Commit) (rbad : Value) (junk : List Value),
      (∀ r ∈ rs, ∃ cs u, get100FromResponse r = some (cs, u) ∧ cs ≠ []) →
      get100FromResponse rbad = none →
      getCommitsLoop (rs ++ rbad :: junk) acc = acc ++ rs.flatMap pageCommits := by
  intro rs
  induction rs with
  | nil =>
    intro acc rbad junk _ hbad
    simp only [List.nil_append, getCommitsLoop, hbad, List.flatMap_nil, List.append_nil]
  | cons r rest ih =>
    intro acc rbad junk hmid hbad
    obtain ⟨cs, u, hr, hcs⟩ := hmid r (List.mem_cons_self _ _)
    have hpage : pageCommits r = cs := by unfold pageCommits; rw [hr]; rfl
    have hcs' : cs.isEmpty = false := by
      cases h : cs.isEmpty
      · rfl
      · exact absurd (List.isEmpty_iff.mp h) hcs
    simp only [List.cons_append, getCommitsLoop, hr, hcs', List.append_eq]
    rw [if_neg (by simp [hcs'])]
    rw [ih (acc ++ cs) rbad junk (fun q hq => hmid q (List.mem_cons_of_mem _ hq)) hbad]
    rw [List.flatMap_cons, hpage, List.append_assoc]

/-- An empty raw batch makes the `get_100_commits` call itself fail, because
`vec.last()` is `None` before any commit is parsed. -/
theorem get100_none_of_empty_raw {re : Value} (hend : rawEntries re = some []) :
    get100FromResponse re = none := by
  unfold get100FromResponse
  rw [hend]
  rfl

/-- C2 (amended): encountering a page whose raw (pre-parse) batch is empty
always ends the pagination, but how it ends depends on the position. On any
call AFTER the first, the engine terminates successfully — ignoring every
page beyond the empty one — and the returned sequence is the concatenation,
in fetch order, of the first page's parsed commits and the parsed commits
of the intermediate pages (necessarily parsed-non-empty for the loop to
have reached the empty page). On the VERY FIRST call, the empty raw batch
makes `vec.last()` `None`, so `get_100_commits` returns `Err` and
`get_commits` propagates it with `?`: the run fails instead of returning
the empty success the claim predicts. -/
theorem c2_terminates_on_empty_page :
    (∀ (r0 : Value) (c0 : List Commit) (u0 : Int) (rs : List Value) (re : Value)
        (junk : List Value),
      get100FromResponse r0 = some (c0, u0) →
      (∀ r ∈ rs, ∃ cs u, get100FromResponse r = some (cs, u) ∧ cs ≠ []) →
      rawEntries re = some [] →
      getCommits (r0 :: (rs ++ re :: junk)) = some (c0 ++ rs.flatMap pageCommits)) ∧
    (∀ (re : Value) (junk : List Value),
      rawEntries re = some [] → getCommits (re :: junk) = none) := by
  constructor
  · intro r0 c0 u0 rs re junk h0 hmid hend
    simp only [getCommits, h0]
    rw [getCommitsLoop_stops rs c0 re junk hmid (get100_none_of_empty_raw hend)]
  · intro re junk hend
    simp only [getCommits, get100_none_of_empty_raw hend]

/-- Witness for the amended C2, exercising both conjuncts: one non-empty
page followed by an empty page yields exactly the first page's parsed
commit as a success, while an empty first page yields the error. -/
theorem c2_terminates_on_empty_page_witness :
    getCommits [mkHistResp [mkEntry "alice" "Fix bug (#42)" "2023-01-01T00:00:00+00:00"],
                mkHistResp []]
      = some [{ author := "alice", message := "Fix bug", pr_number := "42", date := 1672531200 }]
    ∧ getCommits [mkHistResp [], Value.null] = none := by
  constructor
  · have h := c2_terminates_on_empty_page.1
      (mkHistResp [mkEntry "alice" "Fix bug (#42)" "2023-01-01T00:00:00+00:00"])
      [{ author := "alice", message := "Fix bug", pr_number := "42", date := 1672531200 }]
      1672531199 [] (mkHistResp []) [] (by decide) (by simp) rfl
    exact h.trans (by simp)
  · exact c2_terminates_on_empty_page.2 (mkHistResp []) [Value.null] rfl

/-- C2 (counterexample): when the very first page's raw batch is empty the
engine does NOT terminate successfully with the (empty) concatenation — it
returns the error the claim says is impossible. -/
theorem c2_counterexample_first_page_empty :
    rawEntries (mkHistResp []) = some [] ∧ getCommits [mkHistResp []] = none :=
  ⟨rfl, rfl⟩

/-- C6 (amended): when a page-fetch query fails (its response cannot be
navigated) ON ANY CALL AFTER THE FIRST, pagination stops immediately —
ignoring any further pages — and all commits accumulated from the earlier
pages are returned as a success; the failure is swallowed. When the very
FIRST page-fetch fails, however, `get_commits` surfaces the failure as an
error (see the counterexample) instead of returning the empty success.
(A transport-level failure of the underlying `graphql` call is a
`.expect` panic in the source and is outside this embedding; what the loop
swallows is a response that cannot be navigated.) -/
theorem c6_failure_keeps_partial_results (r0 : Value) (c0 : List Commit) (u0 : Int)
    (rs : List Value) (rbad : Value) (junk : List Value)
    (h0 : get100FromResponse r0 = some (c0, u0))
    (hmid : ∀ r ∈ rs, ∃ cs u, get100FromResponse r = some (cs, u) ∧ cs ≠ [])
    (hbad : get100FromResponse rbad = none) :
    getCommits (r0 :: (rs ++ rbad :: junk)) = some (c0 ++ rs.flatMap pageCommits) := by
  simp only [getCommits, h0]
  rw [getCommitsLoop_stops rs c0 rbad junk hmid hbad]

/-- Witness for the amended C6: a non-empty first page followed by an
un-navigable response yields the first page's commit as a success. -/
theorem c6_failure_keeps_partial_results_witness :
    getCommits [mkHistResp [mkEntry "alice" "Fix bug (#42)" "2023-01-01T00:00:00+00:00"],
                Value.null]
      = some [{ author := "alice", message := "Fix bug", pr_number := "42", date := 1672531200 }] := by
  have h := c6_failure_keeps_partial_results
    (mkHistResp [mkEntry "alice" "Fix bug (#42)" "2023-01-01T00:00:00+00:00"])
    [{ author := "alice", message := "Fix bug", pr_number := "42", date := 1672531200 }]
    1672531199 [] Value.null [] (by decide) (by simp) rfl
  exact h.trans (by simp)

/-- C6 (counterexample): a failure of the very FIRST page-fetch is not
swallowed into a successful empty result — `get_commits` propagates it with
`?` and the run returns an error, so "on any failure … return accumulated
commits as a success" is false for the first fetch. -/
theorem c6_counterexample_first_fetch_failure :
    get100FromResponse Value.null = none ∧ getCommits [Value.null] = none :=
  ⟨rfl, rfl⟩

/-- C5: three classified items with strictly increasing commit dates that
arrive in completion order `item3, item1, item2` are pushed onto the
category heap in that arrival order, yet `into_sorted_vec` renders the
section `item1, item2, item3` — ascending by commit date, independent of
completion order. -/
theorem c5_section_sorted_by_date (owner repo : String) (p1 p2 p3 : PR)
    (h12 : p1.commit.date < p2.commit.date) (h23 : p2.commit.date < p3.commit.date) :
    renderSection owner repo (heapPush (heapPush (heapPush [] p3) p1) p2)
      = ["- " ++ displayCommit owner repo p1.commit,
         "- " ++ displayCommit owner repo p2.commit,
         "- " ++ displayCommit owner repo p3.commit] := by
  have h13le : p1.commit.date ≤ p3.commit.date := le_of_lt (lt_trans h12 h23)
  have h23le : p2.commit.date ≤ p3.commit.date := le_of_lt h23
  have hn21 : ¬(p2.commit.date < p1.commit.date) := not_lt.mpr (le_of_lt h12)
  simp [renderSection, intoSortedVec, intoSortedVecAux, siftDown, siftDownAux,
    heapPush, siftUpAux, lswap, h13le, h23le, hn21]

/-- Witness for C5 at concrete dates 1 < 2 < 3. -/
theorem c5_section_sorted_by_date_witness :
    renderSection "boa-dev" "boa"
        (heapPush (heapPush (heapPush []
          { commit := { author := "c", message := "three", pr_number := "3", date := 3 },
            kind := .Feature })
          { commit := { author := "a", message := "one", pr_number := "1", date := 1 },
            kind := .Feature })
          { commit := { author := "b", message := "two", pr_number := "2", date := 2 },
            kind := .Feature })
      = ["- " ++ displayCommit "boa-dev" "boa"
            { author := "a", message := "one", pr_number := "1", date := 1 },
         "- " ++ displayCommit "boa-dev" "boa"
            { author := "b", message := "two", pr_number := "2", date := 2 },
         "- " ++ displayCommit "boa-dev" "boa"
            { author := "c", message := "three", pr_number := "3", date := 3 }] :=
  c5_section_sorted_by_date "boa-dev" "boa"
    { commit := { author := "a", message := "one", pr_number := "1", date := 1 },
      kind := .Feature }
    { commit := { author := "b", message := "two", pr_number := "2", date := 2 },
      kind := .Feature }
    { commit := { author := "c", message := "three", pr_number := "3", date := 3 },
      kind := .Feature }
    (by decide) (by decide)

/-- C8 (counterexample): two classified items with identical commit dates
arriving first `prA` then `prB` are rendered `prB, prA` — the REVERSE of
insertion order, because `BinaryHeap::into_sorted_vec` swaps the root (the
first-inserted element, which ties keep at the root) to the back without
any stability guarantee. The claim's predicted insertion order `[prA, prB]`
is therefore wrong. -/
theorem c8_counterexample_tie_not_insertion_order :
    intoSortedVec (heapPush (heapPush []
        { commit := { author := "a", message := "first", pr_number := "1", date := 5 },
          kind := PRKind.Feature })
        { commit := { author := "b", message := "second", pr_number := "2", date := 5 },
          kind := PRKind.Feature })
      ≠ [{ commit := { author := "a", message := "first", pr_number := "1", date := 5 },
           kind := PRKind.Feature },
         { commit := { author := "b", message := "second", pr_number := "2", date := 5 },
           kind := PRKind.Feature }]
    ∧ intoSortedVec (heapPush (heapPush []
        { commit := { author := "a", message := "first", pr_number := "1", date := 5 },
          kind := PRKind.Feature })
        { commit := { author := "b", message := "second", pr_number := "2", date := 5 },
          kind := PRKind.Feature })
      = [{ commit := { author := "b", message := "second", pr_number := "2", date := 5 },
           kind := PRKind.Feature },
         { commit := { author := "a", message := "first", pr_number := "1", date := 5 },
           kind := PRKind.Feature }] := by
  decide

/-- C8 (amended): the order among equal-date items is deterministic given
the arrival order (the whole pipeline is a function of it, so it is stable
within a single run), but the tie-break is NOT arrival order: two items
with equal commit dates arriving `a` then `b` are always rendered `b` then
`a`. -/
theorem c8_tie_order_deterministic_reversed (a b : PR)
    (h : a.commit.date = b.commit.date) :
    intoSortedVec (heapPush (heapPush [] a) b) = [b, a] := by
  have hle : b.commit.date ≤ a.commit.date := le_of_eq h.symm
  simp [intoSortedVec, intoSortedVecAux, siftDown, siftDownAux, heapPush, siftUpAux,
    lswap, hle]

/-- Witness for the amended C8 at a concrete equal-date pair. -/
theorem c8_tie_order_deterministic_reversed_witness :
    intoSortedVec (heapPush (heapPush []
        { commit := { author := "x", message := "mx", pr_number := "8", date := 9 },
          kind := PRKind.BugFix })
        { commit := { author := "y", message := "my", pr_number := "9", date := 9 },
          kind := PRKind.BugFix })
      = [{ commit := { author := "y", message := "my", pr_number := "9", date := 9 },
           kind := PRKind.BugFix },
         { commit := { author := "x", message := "mx", pr_number := "8", date := 9 },
           kind := PRKind.BugFix }] :=
  c8_tie_order_deterministic_reversed
    { commit := { author := "x", message := "mx", pr_number := "8", date := 9 },
      kind := PRKind.BugFix }
    { commit := { author := "y", message := "my", pr_number := "9", date := 9 },
      kind := PRKind.BugFix }
    rfl

/-- C9: if the labels response for a commit cannot be navigated, the
enrichment for that commit fails (`Err`), the `if let Ok(pr)` in `main`
discards it instead of defaulting it to `Ignored`, and the commit appears
nowhere in the program's output — in no rendered section and not in the
`Ignored` collection. `arrivals` is the completion order, an arbitrary
permutation of the submitted queries' results. -/
theorem c9_failed_enrichment_discarded (queries : List (Commit × Value))
    (arrivals : List (Option PR)) (c : Commit)
    (hperm : arrivals.Perm (queries.map (fun q => prFromCommit q.1 q.2)))
    (hfail : ∀ q ∈ queries, q.1 = c → labelEdges q.2 = none) :
    c ∉ allOutputCommits (aggregate arrivals) := by
  intro hmem
  obtain ⟨pr, hin, hcommit⟩ := mem_allOutputCommits_aggregate hmem
  obtain ⟨q, hq, heq⟩ := List.mem_map.mp (hperm.mem_iff.mp hin)
  have hq1 : pr.commit = q.1 := prFromCommit_commit heq
  have hnone := hfail q hq (by rw [← hq1, hcommit])
  unfold prFromCommit at heq
  rw [hnone] at heq
  exact absurd heq (by simp)

/-- Witness for C9: a single commit whose labels query returns an
un-navigable document is absent from every output collection. -/
theorem c9_failed_enrichment_discarded_witness :
    ({ author := "carol", message := "m", pr_number := "5", date := 3 } : Commit)
      ∉ allOutputCommits (aggregate [none]) := by
  refine c9_failed_enrichment_discarded
    [({ author := "carol", message := "m", pr_number := "5", date := 3 }, Value.null)]
    [none] _ (List.Perm.refl _) ?_
  intro q hq _
  rw [List.mem_singleton] at hq
  subst hq
  rfl

/-- C10: a commit whose author handle contains `"dependabot"` is dropped by
the filter between pagination and classification: it is not among the
commits a labels query is issued for (`botFilter`), and — since every
classification result carries a surviving commit, whose author does not
contain the substring — it never reaches any of the four category
collections nor any rendered section. -/
theorem c10_dependabot_commits_excluded (commits : List Commit) (resp : Commit → Value)
    (arrivals : List (Option PR)) (c : Commit)
    (hdep : strContains c.author "dependabot" = true)
    (hperm : arrivals.Perm (classificationResults commits resp)) :
    c ∉ botFilter commits ∧ c ∉ allOutputCommits (aggregate arrivals) := by
  have hnotin : c ∉ botFilter commits := by
    intro hmem
    have hcond := (List.mem_filter.mp hmem).2
    rw [hdep] at hcond
    exact absurd hcond (by simp)
  refine ⟨hnotin, ?_⟩
  intro hmem
  obtain ⟨pr, hin, hcommit⟩ := mem_allOutputCommits_aggregate hmem
  obtain ⟨c', hc'in, heq⟩ := List.mem_map.mp (hperm.mem_iff.mp hin)
  have hc' : pr.commit = c' := prFromCommit_commit heq
  rw [hcommit] at hc'
  rw [← hc'] at hc'in
  exact hnotin hc'in

/-- Witness for C10: a dependabot-authored commit is filtered before
classification and absent from all output of the resulting (empty) run. -/
theorem c10_dependabot_commits_excluded_witness :
    ({ author := "dependabot[bot]", message := "bump dep", pr_number := "6", date := 4 } : Commit)
        ∉ botFilter [{ author := "dependabot[bot]", message := "bump dep", pr_number := "6",
                       date := 4 }]
      ∧ ({ author := "dependabot[bot]", message := "bump dep", pr_number := "6", date := 4 } : Commit)
        ∉ allOutputCommits (aggregate []) :=
  c10_dependabot_commits_excluded
    [{ author := "dependabot[bot]", message := "bump dep", pr_number := "6", date := 4 }]
    (fun _ => Value.null) [] _ (by decide) (List.Perm.refl _)
